import Mathlib

/-!
Shallow embedding of the two stateful cores of the `fragments-boilerplate`
repository:

* the slot-based buffer animator of
  `src/tsl/post_processing/post_processing.tsx` (`useStorageTrigger`:
  the `trigger` allocation function and the per-frame advance loop), backed
  by the zero-initialised storage buffers of `use_storage_buffers.ts`
  (`useStorageBuffers`);
* the grid trail-texture accumulator of
  `src/tsl/interactivity/use_pointer_uniform.ts` (`useGridTrailTexture`:
  per-frame decay, velocity derivation and decay/snap, the per-cell deposit
  step, and the pointer-move handler).

JavaScript numbers are modelled as exact rationals (`ℚ`); the single place
where the code takes real square roots and real powers (the trail deposit)
is modelled over `ℝ`.  State held in mutable refs becomes explicit state
records; the animation `Map` becomes an association list; the manual/spring
distinction (a property-presence check in the code) becomes a tagged union.
-/

namespace Fragments

/-- `clamp` from `@/utils/math` (the file itself is not under `src/`).
Modelled from the spec: the spec's trail-accumulator step says to
"clamp it to a fixed maximum (10)", i.e. an ordinary interval clamp; the
in-`src` call sites `clamp(-1, x * 2 - 1, 1)` and `clamp(force, 0, 10)` fix
the argument convention up to the commutativity of `max`. -/
def clamp (a v b : ℚ) : ℚ := min (max v a) b

/-- The `EasingType` union of `post_processing.tsx`. -/
inductive EasingType : Type
  | linear
  | easeIn
  | easeOut
  | easeInOut
  | spring
deriving DecidableEq, Repr

/-- The `AnimationState` record of `post_processing.tsx` (manual-easing
animation record; `startTime = 0` encodes "not yet started"). -/
structure AnimationState : Type where
  startTime : ℚ
  duration : ℚ
  easing : EasingType
  targetValue : ℚ
deriving DecidableEq, Repr

/-- The easing computation of the frame loop (`post_processing.tsx`,
lines 145–152): `easedProgress` starts at `progress` and is replaced by the
curve selected by the record's easing tag. -/
def easedProgress (e : EasingType) (progress : ℚ) : ℚ :=
  if e = .easeIn then progress * progress
  else if e = .easeOut then progress * (2 - progress)
  else if e = .easeInOut then
    if progress < 1/2 then 2 * progress * progress
    else -1 + (4 - 2 * progress) * progress
  else progress

/-- The value written by the frame loop for a manual record at a given
progress: `easedProgress * anim.targetValue` (line 154). -/
def manualWrite (s : AnimationState) (progress : ℚ) : ℚ :=
  easedProgress s.easing progress * s.targetValue

/-- An entry of the `animationsRef` map.  The code distinguishes the two
cases by a property-presence check (`'easing' in anim`); here it is a tagged
union: a manual `AnimationState`, or the handle of an external Motion spring
animation (whose target is the only datum of the handle the model keeps). -/
inductive AnimEntry : Type
  | manual (s : AnimationState)
  | springHandle (target : ℚ)
deriving DecidableEq, Repr

/-- Lookup in the `animationsRef` association list (`Map.get`/`Map.has`). -/
def lookupAnim (i : Nat) : List (Nat × AnimEntry) → Option AnimEntry
  | [] => none
  | (j, e) :: rest => if j = i then some e else lookupAnim i rest

/-- `Map.set`: replace the binding of key `i` (or append it). -/
def setAnim (i : Nat) (e : AnimEntry) : List (Nat × AnimEntry) → List (Nat × AnimEntry)
  | [] => [(i, e)]
  | (j, f) :: rest => if j = i then (i, e) :: rest else (j, f) :: setAnim i e rest

/-- `Map.delete`: remove the binding of key `i`. -/
def eraseAnim (i : Nat) : List (Nat × AnimEntry) → List (Nat × AnimEntry)
  | [] => []
  | (j, f) :: rest => if j = i then eraseAnim i rest else (j, f) :: eraseAnim i rest

/-- The state owned by one `useStorageTrigger` pool: the main buffer's
`active` and `values` arrays, the auxiliary data buffers' value arrays
(keyed by name, as in `useStorageBuffers`), and the `animationsRef` map. -/
structure PoolState : Type where
  active : List ℚ
  values : List ℚ
  dataBuffers : List (String × List ℚ)
  animations : List (Nat × AnimEntry)
deriving DecidableEq, Repr

/-- The zero-initialised pool created by `useStorageBuffers`
(`use_storage_buffers.ts`): every `StorageInstancedBufferAttribute(size, 1)`
starts as an all-zero `Float32Array` of length `size`. -/
def initState (size : Nat) (keys : List String) : PoolState :=
  { active := List.replicate size 0
    values := List.replicate size 0
    dataBuffers := keys.map (fun k => (k, List.replicate size 0))
    animations := [] }

/-- `buffer.activeBuffer.array.findIndex((value) => value === 0)`
(`post_processing.tsx`, line 192): index of the first entry equal to 0. -/
def findSlot : List ℚ → Option Nat
  | [] => none
  | v :: rest => if v = 0 then some 0 else (findSlot rest).map (· + 1)

/-- The `data` copy of `trigger` (lines 203–210): for each `(key, value)`
pair of `options.data`, if a data buffer with that key exists, write `value`
at the allocated index of that buffer's values array. -/
def writeData (i : Nat) (data : List (String × ℚ)) (bufs : List (String × List ℚ)) :
    List (String × List ℚ) :=
  data.foldl
    (fun bufs kv => bufs.map (fun b => if b.1 = kv.1 then (b.1, b.2.set i kv.2) else b))
    bufs

/-- `TriggerOptions` with the defaults of `trigger` (lines 183–189):
`targetValue = 1`, `duration = 2.5`, `easing = 'linear'`, `data = {}`.
The spring's `stiffness`/`damping` only configure the external integrator
and are not part of the pool state. -/
structure TriggerOptions : Type where
  targetValue : ℚ := 1
  duration : ℚ := 5/2
  easing : EasingType := .linear
  data : List (String × ℚ) := []
deriving Repr

/-- Result of a `trigger` call: the new pool state and whether the
saturation diagnostic (`console.warn('Buffer full, …')`) was emitted. -/
structure TriggerResult : Type where
  state : PoolState
  warned : Bool
deriving DecidableEq, Repr

/-- The `trigger` function of `useStorageTrigger` (lines 181–241), as a
total function on the pool state: find the first free slot (else warn and
return), mark it active, copy the payload data, and register either an
external spring handle or a manual record with `startTime = 0`. -/
def trigger (opts : TriggerOptions) (st : PoolState) : TriggerResult :=
  match findSlot st.active with
  | none => { state := st, warned := true }
  | some i =>
    let st1 : PoolState :=
      { st with
        active := st.active.set i 1
        dataBuffers := writeData i opts.data st.dataBuffers }
    if opts.easing = .spring then
      { state := { st1 with animations := setAnim i (.springHandle opts.targetValue) st1.animations }
        warned := false }
    else
      { state :=
          { st1 with
            animations := setAnim i
              (.manual { startTime := 0, duration := opts.duration,
                         easing := opts.easing, targetValue := opts.targetValue })
              st1.animations }
        warned := false }

/-- One iteration of the frame loop (`useFrame`, lines 129–167) at slot `i`
and clock time `t`: only an active slot holding a manual record whose easing
is not `'spring'` is advanced.  The start time is initialised lazily, the
eased value is written, and on `progress ≥ 1` the slot is freed
(`active = 0`, `value = 0`) and the record dropped. -/
def stepIndex (t : ℚ) (st : PoolState) (i : Nat) : PoolState :=
  if st.active.getD i 0 = 1 then
    match lookupAnim i st.animations with
    | some (.manual s) =>
      if s.easing ≠ .spring then
        let s' : AnimationState := if s.startTime = 0 then { s with startTime := t } else s
        let elapsed := t - s'.startTime
        let progress := min (elapsed / s'.duration) 1
        let written := manualWrite s' progress
        let st1 : PoolState := { st with values := st.values.set i written }
        if progress ≥ 1 then
          { st1 with
            active := st1.active.set i 0
            values := st1.values.set i 0
            animations := eraseAnim i st1.animations }
        else
          { st1 with animations := setAnim i (.manual s') st1.animations }
      else st
    | _ => st
  else st

/-- The whole frame loop: fold `stepIndex` over slot indices `0..S-1`. -/
def frameStep (t : ℚ) (st : PoolState) : PoolState :=
  (List.range st.active.length).foldl (stepIndex t) st

/-- The externally-triggered events that mutate a pool: a `trigger` call, a
frame tick, and the external spring integrator's `onUpdate`/`onComplete`
callbacks (which capture their slot index and write unconditionally). -/
inductive Op : Type
  | triggerOp (opts : TriggerOptions)
  | frameOp (t : ℚ)
  | springUpdate (i : Nat) (v : ℚ)
  | springComplete (i : Nat)

/-- Apply one event to the pool state.  `springUpdate` is the spring's
`onUpdate` callback (lines 218–221); `springComplete` is `onComplete`
(lines 222–228): reset `active`/`value` to 0 and drop the map entry. -/
def applyOp (op : Op) (st : PoolState) : PoolState :=
  match op with
  | .triggerOp opts => (trigger opts st).state
  | .frameOp t => frameStep t st
  | .springUpdate i v => { st with values := st.values.set i v }
  | .springComplete i =>
    { st with
      active := st.active.set i 0
      values := st.values.set i 0
      animations := eraseAnim i st.animations }

/-- Run a sequence of events from a starting state. -/
def run (ops : List Op) (st : PoolState) : PoolState :=
  ops.foldl (fun s o => applyOp o s) st

/-- The slot-flag invariant: every entry of the `active` array is exactly
0 or 1. -/
def ActiveOK (st : PoolState) : Prop := ∀ v ∈ st.active, v = 0 ∨ v = 1

/-! ## Trail field accumulator (`useGridTrailTexture`) -/

/-- One RGBA texel of the trail `DataTexture` (`.r` horizontal influence,
`.g` vertical influence, `.b` velocity magnitude, `.a` unused), generic in
the number type so the decay path can stay exact (`ℚ`) while the deposit
path, which takes real roots and powers, lives over `ℝ`. -/
structure Cell (α : Type) : Type where
  r : α
  g : α
  b : α
  a : α
deriving DecidableEq, Repr

/-- Decay of one texel (the loop body at lines 231–235 / 259–263): the
first three channels are multiplied by `decay`; the fourth is untouched. -/
def decayCell (decay : ℚ) (c : Cell ℚ) : Cell ℚ :=
  { r := c.r * decay, g := c.g * decay, b := c.b * decay, a := c.a }

/-- The no-pointer frame path (lines 228–238): every cell of the grid is
decayed and nothing else is written. -/
def decayFrame (decay : ℚ) (grid : List (Cell ℚ)) : List (Cell ℚ) :=
  grid.map (decayCell decay)

/-- The pointer-tracking state of `useGridTrailTexture`: `pointerRef`
(previous normalized position) and `pointerVelocityRef`. -/
structure TrailVel : Type where
  pointer : ℚ × ℚ
  velocity : ℚ × ℚ
deriving DecidableEq, Repr

/-- The velocity snap epsilon `EPS = 1e-3` (line 306). -/
def trailEPS : ℚ := 1/1000

/-- The velocity part of a frame tick that has a pointer sample `raw`
(lines 240–250 and 304–312): velocity becomes current minus previous
position and the previous position is updated; at the end of the tick the
stored velocity is multiplied by `decay` and each component with
`|component| < EPS` is snapped to 0.  Returns the new tracking state
together with the velocity as it stood before the final decay/snap (the
value the deposit loop reads). -/
def velocityFrame (decay : ℚ) (raw : ℚ × ℚ) (st : TrailVel) : TrailVel × (ℚ × ℚ) :=
  let vx := raw.1 - st.pointer.1
  let vy := raw.2 - st.pointer.2
  let vx' := vx * decay
  let vy' := vy * decay
  let vx'' := if |vx'| < trailEPS then 0 else vx'
  let vy'' := if |vy'| < trailEPS then 0 else vy'
  ({ pointer := raw, velocity := (vx'', vy'') }, (vx, vy))

/-- The `pointerleave` handler (lines 182–186): drop the raw sample and
zero the velocity. -/
def handlePointerLeave (st : TrailVel) : TrailVel × Option (ℚ × ℚ) :=
  ({ st with velocity := (0, 0) }, none)

/-- A cached `DOMRect` of the canvas. -/
structure Bounds : Type where
  left : ℚ
  top : ℚ
  width : ℚ
  height : ℚ
deriving DecidableEq, Repr

/-- The `pointermove` handler (lines 162–180).  `cached` is
`canvasBoundsRef.current`; `recomputed` is what `updateCanvasBounds` would
cache (the current `getBoundingClientRect`, or `none` when the canvas is
unavailable).  When no bounds are cached the handler recomputes them on
demand; if they are still missing it throws `'Canvas bounds not found'`
(modelled as `Except.error`) and no raw-pointer sample is produced.
Otherwise the event position is normalized against the bounds, scaled to
`[0, 2]` per axis, and stored as the raw pointer sample. -/
def handlePointerMove (cached recomputed : Option Bounds) (clientX clientY : ℚ) :
    Except String (Option Bounds × (ℚ × ℚ)) :=
  match cached with
  | some b => .ok (some b, movePoint b clientX clientY)
  | none =>
    match recomputed with
    | some b => .ok (some b, movePoint b clientX clientY)
    | none => .error "Canvas bounds not found"
where
  /-- Lines 172–179: normalize to `[0, 1]` against the bounds, then clamp
  `2x`/`2y` into `[0, 2]`. -/
  movePoint (b : Bounds) (clientX clientY : ℚ) : ℚ × ℚ :=
    let x := (clientX - b.left) / b.width
    let y := (clientY - b.top) / b.height
    (clamp (x * 2) 0 2, clamp (y * 2) 0 2)

/-- `clamp` over `ℝ`, same convention as `Fragments.clamp`. -/
noncomputable def clampR (a v b : ℝ) : ℝ := min (max v a) b

/-- Squared distance from the brush position to the centre of grid cell
`(x, y)` (lines 268–270): `(cellX − (x+0.5))² + (cellY − (y+0.5))²`. -/
noncomputable def cellSqDist (cellX cellY : ℝ) (x y : Nat) : ℝ :=
  (cellX - ((x : ℝ) + 1/2)) ^ 2 + (cellY - ((y : ℝ) + 1/2)) ^ 2

/-- The falloff force of the deposit loop (lines 274–275):
`mouseRadius / √dist`, then `clamp(force, 0, 10)`. -/
noncomputable def forceAt (mouseRadius dist : ℝ) : ℝ :=
  clampR (mouseRadius / Real.sqrt dist) 0 10

/-- The per-cell deposit step of the trail frame (lines 266–299): a cell is
written only when its squared distance to the brush is strictly between 0
and `mouseRadius²`; the write adds the gamma-curved, gain-scaled velocity
direction (X inverted) into R/G and the scaled speed into B.  `Math.sign`
is `Real.sign`, `Math.hypot` is `√(x²+y²)`, `Math.pow` is `rpow`, and the
JavaScript `‖ 1` guard replaces a zero length by 1. -/
noncomputable def depositCell (mouseRadius gain strength gamma velX velY size cellX cellY : ℝ)
    (x y : Nat) (c : Cell ℝ) : Cell ℝ :=
  let dist := cellSqDist cellX cellY x y
  let distMax := mouseRadius ^ 2
  if dist < distMax ∧ dist > 0 then
    let force := forceAt mouseRadius dist
    let vxGrid := velX * (size / 2)
    let vyGrid := -velY * (size / 2)
    let speedGrid := Real.sqrt (vxGrid ^ 2 + vyGrid ^ 2)
    let vxCurved := Real.sign vxGrid * |vxGrid| ^ gamma
    let vyCurved := Real.sign vyGrid * |vyGrid| ^ gamma
    let speedCurved := speedGrid ^ gamma
    let scale := gain * strength * force
    let dispBase := scale * speedCurved
    let len0 := Real.sqrt (vxCurved ^ 2 + vyCurved ^ 2)
    let len := if len0 = 0 then 1 else len0
    let ndx := vxCurved / len
    let ndy := vyCurved / len
    { r := c.r + dispBase * -ndx
      g := c.g + dispBase * ndy
      b := c.b + scale * speedCurved
      a := c.a }
  else c

/-! ## Helper lemmas -/

theorem getD_set_self (l : List ℚ) (i : Nat) (v d : ℚ) (h : i < l.length) :
    (l.set i v).getD i d = v := by
  induction l generalizing i with
  | nil => simp at h
  | cons hd tl ih =>
    cases i with
    | zero => rfl
    | succ n => exact ih n (by simpa using h)

theorem getD_set_ne (l : List ℚ) (i j : Nat) (v d : ℚ) (h : i ≠ j) :
    (l.set i v).getD j d = l.getD j d := by
  induction l generalizing i j with
  | nil => rfl
  | cons hd tl ih =>
    cases i with
    | zero => cases j with
      | zero => exact absurd rfl h
      | succ m => rfl
    | succ n => cases j with
      | zero => rfl
      | succ m => exact ih n m (fun hnm => h (by rw [hnm]))

theorem mem_set_cases (l : List ℚ) (i : Nat) (v a : ℚ) (h : a ∈ l.set i v) :
    a ∈ l ∨ a = v := by
  induction l generalizing i with
  | nil => simp at h
  | cons hd tl ih =>
    cases i with
    | zero =>
      rcases (List.mem_cons).mp h with h | h
      · exact Or.inr h
      · exact Or.inl (List.mem_cons_of_mem hd h)
    | succ n =>
      rcases (List.mem_cons).mp h with h | h
      · exact Or.inl (h ▸ List.mem_cons_self hd tl)
      · rcases ih n h with h | h
        · exact Or.inl (List.mem_cons_of_mem hd h)
        · exact Or.inr h

theorem findSlot_eq_none (l : List ℚ) (h : ∀ v ∈ l, v ≠ 0) : findSlot l = none := by
  induction l with
  | nil => rfl
  | cons hd tl ih =>
    have hhd : hd ≠ 0 := h hd (List.mem_cons_self hd tl)
    have htl : findSlot tl = none := ih (fun v hv => h v (List.mem_cons_of_mem hd hv))
    simp [findSlot, hhd, htl]

theorem findSlot_spec (l : List ℚ) (i : Nat) (h : findSlot l = some i) :
    i < l.length ∧ l.getD i 1 = 0 := by
  induction l generalizing i with
  | nil => simp [findSlot] at h
  | cons hd tl ih =>
    by_cases hhd : hd = 0
    · simp [findSlot, hhd] at h
      subst h
      simpa using hhd
    · simp [findSlot, hhd] at h
      obtain ⟨j, hj, hji⟩ := h
      obtain ⟨hlt, hget⟩ := ih j hj
      subst hji
      exact ⟨by simpa using Nat.succ_lt_succ hlt, hget⟩

theorem lookupAnim_setAnim_self (i : Nat) (e : AnimEntry) (m : List (Nat × AnimEntry)) :
    lookupAnim i (setAnim i e m) = some e := by
  induction m with
  | nil => simp [setAnim, lookupAnim]
  | cons hd tl ih =>
    by_cases hj : hd.1 = i
    · simp [setAnim, hj, lookupAnim]
    · simp [setAnim, hj, lookupAnim, ih]

theorem lookupAnim_setAnim_ne (i j : Nat) (e : AnimEntry) (m : List (Nat × AnimEntry))
    (h : j ≠ i) : lookupAnim i (setAnim j e m) = lookupAnim i m := by
  induction m with
  | nil => simp [setAnim, lookupAnim, h]
  | cons hd tl ih =>
    by_cases hj : hd.1 = j
    · simp [setAnim, hj, lookupAnim, h]
    · simp only [setAnim, hj, if_false, lookupAnim]
      by_cases hi : hd.1 = i
      · simp [hi]
      · simp [hi, ih]

theorem lookupAnim_eraseAnim_self (i : Nat) (m : List (Nat × AnimEntry)) :
    lookupAnim i (eraseAnim i m) = none := by
  induction m with
  | nil => rfl
  | cons hd tl ih =>
    by_cases hj : hd.1 = i
    · simp [eraseAnim, hj, ih]
    · simp [eraseAnim, hj, lookupAnim, ih]

theorem lookupAnim_eraseAnim_ne (i j : Nat) (m : List (Nat × AnimEntry)) (h : j ≠ i) :
    lookupAnim i (eraseAnim j m) = lookupAnim i m := by
  induction m with
  | nil => rfl
  | cons hd tl ih =>
    by_cases hj : hd.1 = j
    · have hi : hd.1 ≠ i := fun hh => h (hj ▸ hh)
      simp [eraseAnim, hj, lookupAnim, hi, ih, h]
    · simp only [eraseAnim, hj, if_false, lookupAnim]
      by_cases hi : hd.1 = i
      · simp [hi]
      · simp [hi, ih]

/-! ## Claims -/

/-- C1. When every entry of the `active` array is nonzero, the slot scan
`findIndex((value) => value === 0)` fails, so `trigger` warns and returns
before touching any state: `active`, `values`, every auxiliary data array
and the animation map are unchanged, the saturation diagnostic is emitted,
and the call returns normally (`trigger` is a total function; the saturated
path is an early `return` after `console.warn`, not a `throw`). -/
theorem trigger_saturated_noop (opts : TriggerOptions) (st : PoolState)
    (h : ∀ v ∈ st.active, v ≠ 0) :
    trigger opts st = { state := st, warned := true } := by
  unfold trigger
  rw [findSlot_eq_none st.active h]

/-- Witness for C1 on a concrete saturated pool. -/
theorem trigger_saturated_noop_witness :
    trigger {} { active := [1, 1], values := [0, 0], dataBuffers := [], animations := [] } =
      { state := { active := [1, 1], values := [0, 0], dataBuffers := [], animations := [] }
        warned := true } := by
  apply trigger_saturated_noop
  decide

/-- C3. The frame loop's easing computation matches the named reference
curves for every progress in `[0, 1]`: `linear` is the identity, `easeIn`
is `p²`, `easeOut` is `p·(2−p)`, `easeInOut` is the piecewise quadratic
blend split at `p = 1/2` and equals exactly `1/2` at the boundary; and the
value the loop writes for a manual record is `easedProgress × targetValue`
(for a started record on a non-final frame, `values[i]` becomes exactly
that product). -/
theorem easing_curves (p : ℚ) (hp0 : 0 ≤ p) (hp1 : p ≤ 1) :
    easedProgress .linear p = p ∧
    easedProgress .easeIn p = p * p ∧
    easedProgress .easeOut p = p * (2 - p) ∧
    (p < 1/2 → easedProgress .easeInOut p = 2 * p * p) ∧
    (1/2 ≤ p → easedProgress .easeInOut p = -1 + (4 - 2 * p) * p) ∧
    easedProgress .easeInOut (1/2) = 1/2 ∧
    (∀ s : AnimationState, manualWrite s p = easedProgress s.easing p * s.targetValue) ∧
    (∀ (t : ℚ) (st : PoolState) (i : Nat) (s : AnimationState),
      st.active.getD i 0 = 1 →
      lookupAnim i st.animations = some (.manual s) →
      s.easing ≠ .spring →
      s.startTime ≠ 0 →
      i < st.values.length →
      min ((t - s.startTime) / s.duration) 1 < 1 →
      (stepIndex t st i).values.getD i 0 =
        easedProgress s.easing (min ((t - s.startTime) / s.duration) 1) * s.targetValue) := by
  have hio : ∀ q : ℚ, easedProgress .easeInOut q =
      if q < 1/2 then 2 * q * q else -1 + (4 - 2 * q) * q := fun q => rfl
  refine ⟨rfl, rfl, rfl, ?_, ?_, by rw [hio]; norm_num, fun s => rfl, ?_⟩
  · intro h
    rw [hio, if_pos h]
  · intro h
    rw [hio, if_neg (not_lt.mpr h)]
  · intro t st i s hact hanim hns hst hiv hprog
    have hs' : (if s.startTime = 0 then { s with startTime := t } else s) = s := if_neg hst
    have hnp : ¬ min ((t - s.startTime) / s.duration) 1 ≥ 1 := not_le.mpr hprog
    simp only [stepIndex, hact, if_true, hanim, hns, ne_eq, not_false_eq_true, if_true, hs']
    simp only [hnp, if_false]
    exact getD_set_self st.values i _ 0 hiv

/-- Witness for C3 at `p = 3/4` and a concrete one-slot pool holding a
started linear record (`startTime = 1`, `duration = 2`, `target = 5`)
sampled at clock time `t = 2`. -/
theorem easing_curves_witness :
    easedProgress .easeInOut (1/2) = 1/2 ∧
    easedProgress .easeOut (3/4) = 3/4 * (2 - 3/4) ∧
    (stepIndex 2
        { active := [1], values := [0], dataBuffers := []
          animations := [(0, .manual { startTime := 1, duration := 2,
                                       easing := .linear, targetValue := 5 })] }
        0).values.getD 0 0 =
      easedProgress .linear (min ((2 - 1) / 2) 1) * 5 := by
  obtain ⟨-, -, h3, -, -, h6, -, h8⟩ := easing_curves (3/4) (by norm_num) (by norm_num)
  refine ⟨h6, h3, ?_⟩
  exact h8 2 _ 0 { startTime := 1, duration := 2, easing := .linear, targetValue := 5 }
    rfl rfl (by decide) (by norm_num) (by norm_num) (by norm_num)

/-- C2. For a started manual (non-spring) record with positive duration,
on a frame tick whose elapsed time `t − startTime` reaches the duration the
loop's progress saturates at 1, the eased write is `easedProgress(1) ×
targetValue = targetValue`, and on that same tick the slot is freed:
`active[i] = 0`, `value[i] = 0`, and the record is dropped from the map. -/
theorem manual_completion (t : ℚ) (st : PoolState) (i : Nat) (s : AnimationState)
    (hact : st.active.getD i 0 = 1)
    (hanim : lookupAnim i st.animations = some (.manual s))
    (hns : s.easing ≠ .spring)
    (hst : s.startTime ≠ 0)
    (hd : 0 < s.duration)
    (hel : s.duration ≤ t - s.startTime)
    (hia : i < st.active.length)
    (hiv : i < st.values.length) :
    manualWrite s (min ((t - s.startTime) / s.duration) 1) = s.targetValue ∧
    (stepIndex t st i).active.getD i 0 = 0 ∧
    (stepIndex t st i).values.getD i 0 = 0 ∧
    lookupAnim i (stepIndex t st i).animations = none := by
  have hprog : min ((t - s.startTime) / s.duration) 1 = 1 :=
    min_eq_right ((one_le_div hd).mpr hel)
  have heasedAll : ∀ e : EasingType, e ≠ .spring → easedProgress e 1 = 1 := by
    intro e he
    cases e with
    | linear => rfl
    | easeIn => norm_num [easedProgress]
    | easeOut => norm_num [easedProgress]
    | easeInOut => norm_num [easedProgress]
    | spring => exact absurd rfl he
  have heased : easedProgress s.easing 1 = 1 := heasedAll s.easing hns
  have hwrite : manualWrite s (min ((t - s.startTime) / s.duration) 1) = s.targetValue := by
    rw [hprog, manualWrite, heased, one_mul]
  have hs' : (if s.startTime = 0 then { s with startTime := t } else s) = s := if_neg hst
  have hge : min ((t - s.startTime) / s.duration) 1 ≥ 1 := le_of_eq hprog.symm
  refine ⟨hwrite, ?_, ?_, ?_⟩ <;>
    simp only [stepIndex, hact, if_true, hanim, hns, ne_eq, not_false_eq_true, if_true, hs',
      hge, if_pos]
  · exact getD_set_self st.active i _ 0 hia
  · exact getD_set_self _ i _ 0 (by simpa using hiv)
  · exact lookupAnim_eraseAnim_self i st.animations

/-- Witness for C2: a one-slot pool with a started `easeOut` record
(`startTime = 1`, `duration = 2`, `target = 5`) ticked at `t = 3`. -/
theorem manual_completion_witness :
    manualWrite { startTime := 1, duration := 2, easing := .easeOut, targetValue := 5 }
      (min ((3 - 1) / 2) 1) = 5 ∧
    (stepIndex 3
        { active := [1], values := [0], dataBuffers := []
          animations := [(0, .manual { startTime := 1, duration := 2,
                                       easing := .easeOut, targetValue := 5 })] }
        0).active.getD 0 0 = 0 ∧
    (stepIndex 3
        { active := [1], values := [0], dataBuffers := []
          animations := [(0, .manual { startTime := 1, duration := 2,
                                       easing := .easeOut, targetValue := 5 })] }
        0).values.getD 0 0 = 0 ∧
    lookupAnim 0
      (stepIndex 3
        { active := [1], values := [0], dataBuffers := []
          animations := [(0, .manual { startTime := 1, duration := 2,
                                       easing := .easeOut, targetValue := 5 })] }
        0).animations = none :=
  manual_completion 3 _ 0 { startTime := 1, duration := 2, easing := .easeOut, targetValue := 5 }
    rfl rfl (by decide) (by norm_num) (by norm_num) (by norm_num) (by norm_num) (by norm_num)

/-- A frame-loop iteration at slot `j` does one of exactly three things:
nothing, an advancing write at `j` (value plus re-stored record), or a
completion at `j` (value write, then `active`/`value` reset and record
erased).  Every branch touches only index `j` and never the data buffers. -/
theorem stepIndex_shape (t : ℚ) (st : PoolState) (j : Nat) :
    stepIndex t st j = st ∨
    (∃ w s', stepIndex t st j =
      { st with values := st.values.set j w
                animations := setAnim j (.manual s') st.animations }) ∨
    (∃ w, stepIndex t st j =
      { st with active := st.active.set j 0
                values := (st.values.set j w).set j 0
                animations := eraseAnim j st.animations }) := by
  simp only [stepIndex]
  by_cases h1 : st.active.getD j 0 = 1
  · simp only [h1, if_true]
    cases hm : lookupAnim j st.animations with
    | none => exact Or.inl rfl
    | some e =>
      cases e with
      | springHandle v => exact Or.inl rfl
      | manual s =>
        by_cases h2 : s.easing = EasingType.spring
        · simp only [h2, ne_eq, not_true_eq_false, if_false]
          exact Or.inl trivial
        · simp only [ne_eq, h2, not_false_eq_true, if_true]
          by_cases h3 : min ((t - (if s.startTime = 0 then { s with startTime := t }
              else s).startTime) /
              (if s.startTime = 0 then { s with startTime := t } else s).duration) 1 ≥ 1
          · exact Or.inr (Or.inr ⟨_, by rw [if_pos h3]⟩)
          · exact Or.inr (Or.inl ⟨_, _, by rw [if_neg h3]⟩)
  · simp only [h1, if_false]
    exact Or.inl trivial

/-- The frame loop never changes the length of the `active` array. -/
theorem stepIndex_active_length (t : ℚ) (st : PoolState) (j : Nat) :
    (stepIndex t st j).active.length = st.active.length := by
  rcases stepIndex_shape t st j with h | ⟨w, s', h⟩ | ⟨w, h⟩ <;> simp [h]

/-- A frame-loop iteration at `j` leaves the `active` and `values` entries
at any other index, and the animation-map binding of any other key,
untouched; a slot holding an external spring handle is left entirely alone
(the manual-advance branch requires a `manual` record). -/
theorem stepIndex_preserves (t : ℚ) (st : PoolState) (j i : Nat) (v : ℚ)
    (h : lookupAnim i st.animations = some (.springHandle v)) :
    (stepIndex t st j).active.getD i 0 = st.active.getD i 0 ∧
    (stepIndex t st j).values.getD i 0 = st.values.getD i 0 ∧
    lookupAnim i (stepIndex t st j).animations = some (.springHandle v) := by
  by_cases hij : j = i
  · subst hij
    have hid : stepIndex t st j = st := by
      simp only [stepIndex, h]
      split <;> rfl
    rw [hid]
    exact ⟨rfl, rfl, h⟩
  · rcases stepIndex_shape t st j with hs | ⟨w, s', hs⟩ | ⟨w, hs⟩
    · rw [hs]; exact ⟨rfl, rfl, h⟩
    · rw [hs]
      exact ⟨rfl, getD_set_ne st.values j i w 0 hij,
        by rw [lookupAnim_setAnim_ne i j _ _ hij]; exact h⟩
    · rw [hs]
      refine ⟨getD_set_ne st.active j i 0 0 hij, ?_, ?_⟩
      · rw [getD_set_ne _ j i 0 0 hij, getD_set_ne st.values j i w 0 hij]
      · rw [lookupAnim_eraseAnim_ne i j _ hij]; exact h

/-- The whole frame loop preserves a spring-held slot (fold of
`stepIndex_preserves` over all slot indices). -/
theorem foldl_stepIndex_preserves (t : ℚ) (L : List Nat) (st : PoolState) (i : Nat) (v : ℚ)
    (h : lookupAnim i st.animations = some (.springHandle v)) :
    (L.foldl (stepIndex t) st).active.getD i 0 = st.active.getD i 0 ∧
    (L.foldl (stepIndex t) st).values.getD i 0 = st.values.getD i 0 ∧
    lookupAnim i (L.foldl (stepIndex t) st).animations = some (.springHandle v) := by
  induction L generalizing st with
  | nil => exact ⟨rfl, rfl, h⟩
  | cons j L ih =>
    obtain ⟨h1, h2, h3⟩ := stepIndex_preserves t st j i v h
    obtain ⟨g1, g2, g3⟩ := ih (stepIndex t st j) h3
    exact ⟨by rw [List.foldl_cons, g1, h1], by rw [List.foldl_cons, g2, h2],
      by rw [List.foldl_cons]; exact g3⟩

/-- C6. A slot allocated with `easing = 'spring'` is invisible to the
per-frame manual advance: `trigger` stores an external spring handle (not a
manual record) for the allocated index, and a whole frame tick leaves such
a slot's `value`, `active` flag and map entry exactly as they were — its
evolution can only come from the integrator's `onUpdate`/`onComplete`
callbacks, so disabling the frame tick cannot affect it. -/
theorem spring_slot_untouched (t : ℚ) (st : PoolState) (i : Nat) (v : ℚ)
    (h : lookupAnim i st.animations = some (.springHandle v)) :
    (frameStep t st).active.getD i 0 = st.active.getD i 0 ∧
    (frameStep t st).values.getD i 0 = st.values.getD i 0 ∧
    lookupAnim i (frameStep t st).animations = some (.springHandle v) ∧
    (∀ (opts : TriggerOptions) (st' : PoolState) (j : Nat),
      opts.easing = .spring → findSlot st'.active = some j →
      lookupAnim j ((trigger opts st').state).animations =
        some (.springHandle opts.targetValue)) := by
  obtain ⟨h1, h2, h3⟩ := foldl_stepIndex_preserves t (List.range st.active.length) st i v h
  refine ⟨h1, h2, h3, ?_⟩
  intro opts st' j hspring hfind
  simp only [trigger, hfind, hspring, if_pos]
  exact lookupAnim_setAnim_self j _ _

/-- Witness for C6: a one-slot pool holding a spring handle, ticked at
`t = 7`, and a spring trigger into an empty one-slot pool. -/
theorem spring_slot_untouched_witness :
    (frameStep 7 { active := [1], values := [1/2], dataBuffers := []
                   animations := [(0, .springHandle 3)] }).active.getD 0 0 =
      ({ active := [1], values := [1/2], dataBuffers := []
         animations := [(0, .springHandle 3)] } : PoolState).active.getD 0 0 ∧
    (frameStep 7 { active := [1], values := [1/2], dataBuffers := []
                   animations := [(0, .springHandle 3)] }).values.getD 0 0 =
      ({ active := [1], values := [1/2], dataBuffers := []
         animations := [(0, .springHandle 3)] } : PoolState).values.getD 0 0 ∧
    lookupAnim 0 (frameStep 7 { active := [1], values := [1/2], dataBuffers := []
                                animations := [(0, .springHandle 3)] }).animations =
      some (.springHandle 3) ∧
    lookupAnim 0 ((trigger { easing := .spring, targetValue := 3 }
        { active := [0], values := [0], dataBuffers := [], animations := [] }).state).animations =
      some (.springHandle 3) := by
  obtain ⟨h1, h2, h3, h4⟩ := spring_slot_untouched 7
    { active := [1], values := [1/2], dataBuffers := [], animations := [(0, .springHandle 3)] }
    0 3 rfl
  exact ⟨h1, h2, h3, h4 { easing := .spring, targetValue := 3 }
    { active := [0], values := [0], dataBuffers := [], animations := [] } 0 rfl rfl⟩

/-- `trigger` changes the `active` array only by setting the found free
slot to 1 (and not at all on saturation), in both easing branches. -/
theorem trigger_active_eq (opts : TriggerOptions) (st : PoolState) :
    (trigger opts st).state.active =
      (match findSlot st.active with
       | none => st.active
       | some i => st.active.set i 1) := by
  unfold trigger
  cases findSlot st.active with
  | none => rfl
  | some i => by_cases h : opts.easing = EasingType.spring <;> simp [h]

/-- `trigger` changes the data buffers only through the payload copy
`writeData` at the found slot (and not at all on saturation). -/
theorem trigger_dataBuffers_eq (opts : TriggerOptions) (st : PoolState) :
    (trigger opts st).state.dataBuffers =
      (match findSlot st.active with
       | none => st.dataBuffers
       | some i => writeData i opts.data st.dataBuffers) := by
  unfold trigger
  cases findSlot st.active with
  | none => rfl
  | some i => by_cases h : opts.easing = EasingType.spring <;> simp [h]

theorem activeOK_set (l : List ℚ) (i : Nat) (w : ℚ) (hw : w = 0 ∨ w = 1)
    (h : ∀ v ∈ l, v = 0 ∨ v = 1) : ∀ v ∈ l.set i w, v = 0 ∨ v = 1 := by
  intro v hv
  rcases mem_set_cases l i w v hv with hv | hv
  · exact h v hv
  · rw [hv]; exact hw

theorem activeOK_trigger (opts : TriggerOptions) (st : PoolState) (h : ActiveOK st) :
    ActiveOK (trigger opts st).state := by
  unfold ActiveOK
  rw [trigger_active_eq]
  cases findSlot st.active with
  | none => exact h
  | some i => exact activeOK_set st.active i 1 (Or.inr rfl) h

theorem activeOK_stepIndex (t : ℚ) (st : PoolState) (j : Nat) (h : ActiveOK st) :
    ActiveOK (stepIndex t st j) := by
  rcases stepIndex_shape t st j with hs | ⟨w, s', hs⟩ | ⟨w, hs⟩ <;> rw [hs]
  · exact h
  · exact h
  · exact activeOK_set st.active j 0 (Or.inl rfl) h

theorem activeOK_foldl (t : ℚ) (L : List Nat) (st : PoolState) (h : ActiveOK st) :
    ActiveOK (L.foldl (stepIndex t) st) := by
  induction L generalizing st with
  | nil => exact h
  | cons j L ih => exact ih (stepIndex t st j) (activeOK_stepIndex t st j h)

theorem activeOK_applyOp (op : Op) (st : PoolState) (h : ActiveOK st) :
    ActiveOK (applyOp op st) := by
  cases op with
  | triggerOp opts => exact activeOK_trigger opts st h
  | frameOp t => exact activeOK_foldl t (List.range st.active.length) st h
  | springUpdate i v => exact h
  | springComplete i => exact activeOK_set st.active i 0 (Or.inl rfl) h

theorem activeOK_run (ops : List Op) (st : PoolState) (h : ActiveOK st) :
    ActiveOK (run ops st) := by
  induction ops generalizing st with
  | nil => exact h
  | cons op ops ih => exact ih (applyOp op st) (activeOK_applyOp op st h)

/-- C9. Starting from the zero-initialised pool of `useStorageBuffers`,
every entry of the `active` array stays exactly 0 or 1 under any sequence
of `trigger` calls, frame ticks, and spring `onUpdate`/`onComplete`
callbacks; moreover a successful `trigger` flips exactly one entry — the
first free index, which was previously 0 — to 1. -/
theorem active_flags_zero_one (size : Nat) (keys : List String) (ops : List Op) :
    ActiveOK (run ops (initState size keys)) ∧
    (∀ (opts : TriggerOptions) (st : PoolState) (i : Nat),
      findSlot st.active = some i →
      i < st.active.length ∧ st.active.getD i 1 = 0 ∧
      (trigger opts st).state.active = st.active.set i 1) := by
  constructor
  · refine activeOK_run ops (initState size keys) ?_
    intro v hv
    exact Or.inl (List.eq_of_mem_replicate hv)
  · intro opts st i hfind
    obtain ⟨hlt, hz⟩ := findSlot_spec st.active i hfind
    refine ⟨hlt, hz, ?_⟩
    rw [trigger_active_eq, hfind]

/-- Witness for C9 on a two-slot pool: a trigger, a frame tick, a spring
completion, then a second trigger into the partially refilled pool. -/
theorem active_flags_zero_one_witness :
    ActiveOK (run [Op.triggerOp {}, Op.frameOp 1, Op.springComplete 0, Op.triggerOp {}]
      (initState 2 ["posX"])) ∧
    (trigger {}
        { active := [0, 1], values := [0, 0], dataBuffers := []
          animations := [] }).state.active = ([0, 1] : List ℚ).set 0 1 := by
  obtain ⟨h1, h2⟩ := active_flags_zero_one 2 ["posX"]
    [Op.triggerOp {}, Op.frameOp 1, Op.springComplete 0, Op.triggerOp {}]
  exact ⟨h1, (h2 {}
    { active := [0, 1], values := [0, 0], dataBuffers := []
      animations := [] } 0 rfl).2.2⟩

theorem foldl_stepIndex_dataBuffers (t : ℚ) (L : List Nat) (st : PoolState) :
    (L.foldl (stepIndex t) st).dataBuffers = st.dataBuffers := by
  induction L generalizing st with
  | nil => rfl
  | cons j L ih =>
    rw [List.foldl_cons, ih (stepIndex t st j)]
    rcases stepIndex_shape t st j with hs | ⟨w, s', hs⟩ | ⟨w, hs⟩ <;> rw [hs]

/-- C10. Freeing a slot on completion — whether by the frame loop reaching
progress 1 or by the spring integrator's `onComplete` — resets only the
main buffer's `active` flag and value at that index: the auxiliary data
buffers are never written by any completion path, and the `active`/`values`
entries at every other index are untouched too.  Payload data therefore
persists at a freed index until a later `trigger` reuses it, and only
`trigger`'s `writeData` copy ever writes the auxiliary buffers. -/
theorem payload_persists (t : ℚ) (st : PoolState) (i : Nat) (v : ℚ) (opts : TriggerOptions) :
    (stepIndex t st i).dataBuffers = st.dataBuffers ∧
    (frameStep t st).dataBuffers = st.dataBuffers ∧
    (applyOp (.springComplete i) st).dataBuffers = st.dataBuffers ∧
    (applyOp (.springUpdate i v) st).dataBuffers = st.dataBuffers ∧
    (∀ k, k ≠ i →
      (stepIndex t st i).active.getD k 0 = st.active.getD k 0 ∧
      (stepIndex t st i).values.getD k 0 = st.values.getD k 0) ∧
    (∀ k, k ≠ i →
      (applyOp (.springComplete i) st).active.getD k 0 = st.active.getD k 0 ∧
      (applyOp (.springComplete i) st).values.getD k 0 = st.values.getD k 0) ∧
    (trigger opts st).state.dataBuffers =
      (match findSlot st.active with
       | none => st.dataBuffers
       | some j => writeData j opts.data st.dataBuffers) := by
  refine ⟨?_, foldl_stepIndex_dataBuffers t _ st, rfl, rfl, ?_, ?_, trigger_dataBuffers_eq opts st⟩
  · rcases stepIndex_shape t st i with hs | ⟨w, s', hs⟩ | ⟨w, hs⟩ <;> rw [hs]
  · intro k hk
    have hik : i ≠ k := fun h => hk h.symm
    rcases stepIndex_shape t st i with hs | ⟨w, s', hs⟩ | ⟨w, hs⟩ <;> rw [hs]
    · exact ⟨rfl, rfl⟩
    · exact ⟨rfl, getD_set_ne st.values i k w 0 hik⟩
    · exact ⟨getD_set_ne st.active i k 0 0 hik,
        by rw [getD_set_ne _ i k 0 0 hik, getD_set_ne st.values i k w 0 hik]⟩
  · intro k hk
    have hik : i ≠ k := fun h => hk h.symm
    exact ⟨getD_set_ne st.active i k 0 0 hik, getD_set_ne st.values i k 0 0 hik⟩

/-- Witness for C10 on a one-key, two-slot pool with payload data at the
freed index 0. -/
theorem payload_persists_witness :
    (frameStep 9
        { active := [0, 1], values := [0, 0], dataBuffers := [("posX", [7, 0])]
          animations := [] }).dataBuffers = [("posX", [7, 0])] ∧
    (applyOp (.springComplete 0)
        { active := [1, 1], values := [1, 0], dataBuffers := [("posX", [7, 0])]
          animations := [] }).dataBuffers = [("posX", [7, 0])] ∧
    (applyOp (.springComplete 0)
        { active := [1, 1], values := [1, 0], dataBuffers := [("posX", [7, 0])]
          animations := [] }).active.getD 1 0 = 1 := by
  obtain ⟨-, h2, -, -, -, -, -⟩ := payload_persists 9
    { active := [0, 1], values := [0, 0], dataBuffers := [("posX", [7, 0])], animations := [] }
    0 0 {}
  obtain ⟨-, -, h3, -, -, h6, -⟩ := payload_persists 9
    { active := [1, 1], values := [1, 0], dataBuffers := [("posX", [7, 0])], animations := [] }
    0 0 {}
  exact ⟨h2, h3, by rw [(h6 1 (by norm_num)).1]; rfl⟩

theorem abs_mul_decay_lt (d x : ℚ) (h0 : 0 ≤ d) (h1 : d < 1) (hx : x ≠ 0) :
    |x * d| < |x| := by
  rw [abs_mul, abs_of_nonneg h0]
  exact mul_lt_of_lt_one_right (abs_pos.mpr hx) h1

/-- C4. On a frame tick with no pointer sample, the trail update multiplies
every cell's R, G and B channels by exactly the decay factor, leaves the
alpha channel untouched, and writes nothing else to the grid (the new grid
is the cell-wise `decayCell` image, same length); with decay in `[0, 1)`
every nonzero channel strictly decreases in magnitude and zero channels
stay at zero. -/
theorem decay_only_frame (decay : ℚ) (grid : List (Cell ℚ)) (i : Nat) (c : Cell ℚ)
    (h0 : 0 ≤ decay) (h1 : decay < 1) :
    (decayFrame decay grid).length = grid.length ∧
    (decayFrame decay grid)[i]? = (grid[i]?).map (decayCell decay) ∧
    (decayCell decay c).r = c.r * decay ∧
    (decayCell decay c).g = c.g * decay ∧
    (decayCell decay c).b = c.b * decay ∧
    (decayCell decay c).a = c.a ∧
    (c.r ≠ 0 → |(decayCell decay c).r| < |c.r|) ∧
    (c.g ≠ 0 → |(decayCell decay c).g| < |c.g|) ∧
    (c.b ≠ 0 → |(decayCell decay c).b| < |c.b|) ∧
    (c.r = 0 → (decayCell decay c).r = 0) ∧
    (c.g = 0 → (decayCell decay c).g = 0) ∧
    (c.b = 0 → (decayCell decay c).b = 0) := by
  refine ⟨by simp [decayFrame], by simp [decayFrame], rfl, rfl, rfl, rfl,
    fun h => abs_mul_decay_lt decay c.r h0 h1 h,
    fun h => abs_mul_decay_lt decay c.g h0 h1 h,
    fun h => abs_mul_decay_lt decay c.b h0 h1 h,
    fun h => ?_, fun h => ?_, fun h => ?_⟩ <;> simp [decayCell, h]

/-- Witness for C4 at `decay = 3/4` and the cell `(2, 0, -1, 5)`. -/
theorem decay_only_frame_witness :
    (decayFrame (3/4) [⟨2, 0, -1, 5⟩]).length = 1 ∧
    (decayCell (3/4) ⟨2, 0, -1, 5⟩).a = 5 ∧
    |(decayCell (3/4) (⟨2, 0, -1, 5⟩ : Cell ℚ)).r| < |(2 : ℚ)| ∧
    (decayCell (3/4) ⟨2, 0, -1, 5⟩).g = 0 := by
  obtain ⟨hl, -, -, -, -, ha, hr, -, -, -, hg, -⟩ :=
    decay_only_frame (3/4) [⟨2, 0, -1, 5⟩] 0 ⟨2, 0, -1, 5⟩ (by norm_num) (by norm_num)
  exact ⟨hl, ha, hr (by norm_num), hg rfl⟩

/-- C5. On a frame tick with a pointer sample, the velocity is exactly the
difference between the current and previous normalized positions before any
decay is applied (and the previous position becomes the current one); at
the end of the same tick the stored velocity has been multiplied by the
decay factor, and each component whose absolute value is then below
`1e-3` is snapped to exactly 0 (otherwise it equals delta times decay). -/
theorem velocity_delta_then_decay_snap (decay : ℚ) (raw : ℚ × ℚ) (st : TrailVel) :
    (velocityFrame decay raw st).2 = (raw.1 - st.pointer.1, raw.2 - st.pointer.2) ∧
    (velocityFrame decay raw st).1.pointer = raw ∧
    (|(raw.1 - st.pointer.1) * decay| < trailEPS →
      (velocityFrame decay raw st).1.velocity.1 = 0) ∧
    (¬ |(raw.1 - st.pointer.1) * decay| < trailEPS →
      (velocityFrame decay raw st).1.velocity.1 = (raw.1 - st.pointer.1) * decay) ∧
    (|(raw.2 - st.pointer.2) * decay| < trailEPS →
      (velocityFrame decay raw st).1.velocity.2 = 0) ∧
    (¬ |(raw.2 - st.pointer.2) * decay| < trailEPS →
      (velocityFrame decay raw st).1.velocity.2 = (raw.2 - st.pointer.2) * decay) := by
  refine ⟨rfl, rfl, fun h => ?_, fun h => ?_, fun h => ?_, fun h => ?_⟩ <;>
    simp [velocityFrame, h]

/-- Witness for C5: previous position `(0, 0)`, current `(1, 1/2000)`,
decay `1/2`: the X component survives the snap, the Y component (decayed to
`1/8000 < 1/1000`) snaps to exactly 0. -/
theorem velocity_delta_then_decay_snap_witness :
    (velocityFrame (1/2) (1, 1/2000) ⟨(0, 0), (0, 0)⟩).2 = (1 - 0, 1/2000 - 0) ∧
    (velocityFrame (1/2) (1, 1/2000) ⟨(0, 0), (0, 0)⟩).1.velocity.1 = (1 - 0) * (1/2) ∧
    (velocityFrame (1/2) (1, 1/2000) ⟨(0, 0), (0, 0)⟩).1.velocity.2 = 0 := by
  obtain ⟨h1, -, -, h4, h5, -⟩ :=
    velocity_delta_then_decay_snap (1/2) (1, 1/2000) ⟨(0, 0), (0, 0)⟩
  exact ⟨h1, h4 (by rw [trailEPS]; norm_num [abs_of_pos]), h5 (by rw [trailEPS]; norm_num [abs_of_pos])⟩

/-- C8. The `pointermove` handler resolves the canvas bounds before any
coordinate math: a cached rectangle is used as is; with no cached rectangle
it recomputes one on demand and uses it exactly as a cached one; and if
bounds are still unavailable after recomputation it throws
`'Canvas bounds not found'` to the caller — the error path produces no
pointer sample, so no later grid deposit can result from that event. -/
theorem pointer_bounds_resolution (cached recomputed : Option Bounds) (cx cy : ℚ) :
    (cached = none → recomputed = none →
      handlePointerMove cached recomputed cx cy = .error "Canvas bounds not found") ∧
    (∀ b, cached = none → recomputed = some b →
      handlePointerMove cached recomputed cx cy =
        .ok (some b, handlePointerMove.movePoint b cx cy)) ∧
    (∀ b, cached = some b →
      handlePointerMove cached recomputed cx cy =
        .ok (some b, handlePointerMove.movePoint b cx cy)) := by
  refine ⟨fun h1 h2 => ?_, fun b h1 h2 => ?_, fun b h1 => ?_⟩ <;>
    simp [handlePointerMove, h1]
  · rw [h2]
  · rw [h2]

/-- Witness for C8: no cached and no recomputable bounds yield the fatal
error; a recomputed rectangle is used for the sample. -/
theorem pointer_bounds_resolution_witness :
    handlePointerMove none none 10 20 = .error "Canvas bounds not found" ∧
    handlePointerMove none (some ⟨0, 0, 100, 50⟩) 10 20 =
      .ok (some ⟨0, 0, 100, 50⟩, handlePointerMove.movePoint ⟨0, 0, 100, 50⟩ 10 20) := by
  obtain ⟨h1, h2, -⟩ := pointer_bounds_resolution none none 10 20
  obtain ⟨-, g2, -⟩ := pointer_bounds_resolution none (some ⟨0, 0, 100, 50⟩) 10 20
  exact ⟨h1 rfl rfl, g2 ⟨0, 0, 100, 50⟩ rfl rfl⟩

/-- C7. The trail deposit writes to a cell only when the squared distance
from the brush centre is strictly between 0 and the squared influence
radius (outside that open interval the cell is returned unchanged); under
the guard the divisor `√dist` is nonzero, so `mouseRadius / √dist` never
divides by zero; and the clamped force always lies in `[0, 10]`. -/
theorem deposit_guard_and_clamp
    (mouseRadius gain strength gamma velX velY size cellX cellY : ℝ)
    (x y : Nat) (c : Cell ℝ) :
    (¬ (cellSqDist cellX cellY x y < mouseRadius ^ 2 ∧ cellSqDist cellX cellY x y > 0) →
      depositCell mouseRadius gain strength gamma velX velY size cellX cellY x y c = c) ∧
    (cellSqDist cellX cellY x y > 0 → Real.sqrt (cellSqDist cellX cellY x y) ≠ 0) ∧
    0 ≤ forceAt mouseRadius (cellSqDist cellX cellY x y) ∧
    forceAt mouseRadius (cellSqDist cellX cellY x y) ≤ 10 := by
  refine ⟨fun h => ?_, fun h => ?_, ?_, ?_⟩
  · rw [depositCell, if_neg h]
  · exact ne_of_gt (Real.sqrt_pos.mpr h)
  · exact le_min (le_max_left 0 _) (by norm_num)
  · exact min_le_right _ 10

/-- Witness for C7: brush centred on the cell centre `(1/2, 1/2)` of cell
`(0,0)` has `dist = 0`, so no write happens there; moved to `(3/2, 1/2)`
the distance is 1 and the `√dist` divisor is nonzero; force bounds at that
distance. -/
theorem deposit_guard_and_clamp_witness :
    depositCell 2 1 1 1 0 0 50 (1/2) (1/2) 0 0 ⟨1, 2, 3, 4⟩ = (⟨1, 2, 3, 4⟩ : Cell ℝ) ∧
    Real.sqrt (cellSqDist (3/2) (1/2) 0 0) ≠ 0 ∧
    0 ≤ forceAt 2 (cellSqDist (3/2) (1/2) 0 0) ∧
    forceAt 2 (cellSqDist (3/2) (1/2) 0 0) ≤ 10 := by
  obtain ⟨h1, -, -, -⟩ := deposit_guard_and_clamp 2 1 1 1 0 0 50 (1/2) (1/2) 0 0 ⟨1, 2, 3, 4⟩
  obtain ⟨-, g2, g3, g4⟩ := deposit_guard_and_clamp 2 1 1 1 0 0 50 (3/2) (1/2) 0 0 ⟨1, 2, 3, 4⟩
  have hzero : cellSqDist (1/2) (1/2) 0 0 = 0 := by
    rw [cellSqDist]
    norm_num
  have hone : cellSqDist (3/2) (1/2) 0 0 > 0 := by
    rw [cellSqDist]
    norm_num
  refine ⟨h1 ?_, g2 hone, g3, g4⟩
  rw [hzero]
  rintro ⟨-, hlt⟩
  exact lt_irrefl 0 hlt

end Fragments
